import Mathlib

/-!
Verification development for a client-side subscription-management dashboard.

The dashboard's analytics functions (`calculateMonthlySpend`, `getNextRenewal`,
`getCategorySpending`, `getLastMonthSpend`, `generateChartData`,
`changePercentage`), the subscription registry's derived view
(`filteredAndSortedSubscriptions`), and the payment-modal state machine
(`validatePayment`, `handleContinueToSummary`, `handleConfirmPayment`,
`formatCardNumber`, `getCardType`) are shallowly embedded below.
JavaScript numbers are modelled as rationals; JavaScript `Date` values are
modelled as calendar dates (year, zero-based month, day of month) with the
engine's month/year arithmetic, including day overflow into the next month.
-/

namespace Changes

/-- Calendar date mirroring a normalized JavaScript `Date` at day granularity:
`year` is arbitrary, `month` is zero-based (0 = January), `day` is the day of
the month (valid dates use 1..31; the type admits 0..31). -/
structure JDate where
  year : ℤ
  month : Fin 12
  day : Fin 32
deriving DecidableEq, Repr

/-- Gregorian leap-year test, as used by JavaScript date normalization. -/
def isLeap (y : ℤ) : Prop := (y % 4 = 0 ∧ y % 100 ≠ 0) ∨ y % 400 = 0

instance (y : ℤ) : Decidable (isLeap y) := by
  unfold isLeap; infer_instance

/-- Number of days in the given zero-based month of the given year. -/
def daysInMonth (y : ℤ) (m : Fin 12) : ℕ :=
  if m.val = 1 then (if isLeap y then 29 else 28)
  else if m.val = 3 ∨ m.val = 5 ∨ m.val = 8 ∨ m.val = 10 then 30
  else 31

theorem daysInMonth_ge : ∀ (y : ℤ) (m : Fin 12), 28 ≤ daysInMonth y m := by
  intro y m
  unfold daysInMonth
  split <;> [skip; split] <;> first | omega | (split <;> omega)

theorem daysInMonth_le : ∀ (y : ℤ) (m : Fin 12), daysInMonth y m ≤ 31 := by
  intro y m
  unfold daysInMonth
  split <;> [skip; split] <;> first | omega | (split <;> omega)

/-- December has 31 days. -/
theorem daysInMonth_eleven (y : ℤ) : daysInMonth y ⟨11, by omega⟩ = 31 := by
  unfold daysInMonth
  norm_num

/-- Strict timestamp order on dates (normalized dates compare
lexicographically by year, then month, then day, exactly as JavaScript
`Date` comparison does). -/
def dateLt (a b : JDate) : Prop :=
  a.year < b.year ∨
    (a.year = b.year ∧
      (a.month.val < b.month.val ∨
        (a.month.val = b.month.val ∧ a.day.val < b.day.val)))

instance (a b : JDate) : Decidable (dateLt a b) := by
  unfold dateLt; infer_instance

/-- Non-strict timestamp order on dates; `a <= b` in JavaScript is the
negation of `b < a`. -/
def dateLe (a b : JDate) : Prop := ¬ dateLt b a

instance (a b : JDate) : Decidable (dateLe a b) := by
  unfold dateLe; infer_instance

/-- Linearization of a date used as a termination measure and as a stand-in
for the JavaScript timestamp: strictly monotone with respect to `dateLt`. -/
def ordD (d : JDate) : ℤ := 500 * d.year + 40 * (d.month.val : ℤ) + (d.day.val : ℤ)

theorem ordD_lt_of_dateLt {a b : JDate} (h : dateLt a b) : ordD a < ordD b := by
  have hma : (a.month.val : ℤ) < 12 := by exact_mod_cast a.month.isLt
  have hmb : (b.month.val : ℤ) < 12 := by exact_mod_cast b.month.isLt
  have hda : (a.day.val : ℤ) < 32 := by exact_mod_cast a.day.isLt
  have hdb : (b.day.val : ℤ) < 32 := by exact_mod_cast b.day.isLt
  have hma0 : (0 : ℤ) ≤ (a.month.val : ℤ) := by positivity
  have hmb0 : (0 : ℤ) ≤ (b.month.val : ℤ) := by positivity
  have hda0 : (0 : ℤ) ≤ (a.day.val : ℤ) := by positivity
  have hdb0 : (0 : ℤ) ≤ (b.day.val : ℤ) := by positivity
  unfold ordD
  rcases h with h | ⟨hy, h | ⟨hm, hd⟩⟩
  · nlinarith
  · have hm' : (a.month.val : ℤ) < (b.month.val : ℤ) := by exact_mod_cast h
    rw [hy]; nlinarith
  · have hm' : (a.month.val : ℤ) = (b.month.val : ℤ) := by exact_mod_cast hm
    have hd' : (a.day.val : ℤ) < (b.day.val : ℤ) := by exact_mod_cast hd
    rw [hy, hm']; omega

/-- Result of JavaScript `d.setMonth(d.getMonth() - 1)`: move to the previous
month, and if the day of month exceeds that month's length, overflow the
excess days into the following month. -/
def stepBackMonth (dt : JDate) : JDate :=
  if dt.month.val = 0 then
    if dt.day.val ≤ daysInMonth (dt.year - 1) ⟨11, by omega⟩ then
      ⟨dt.year - 1, ⟨11, by omega⟩, dt.day⟩
    else
      ⟨dt.year - 1, ⟨0, by omega⟩,
        ⟨dt.day.val - daysInMonth (dt.year - 1) ⟨11, by omega⟩,
          by have := dt.day.isLt; omega⟩⟩
  else
    if dt.day.val ≤ daysInMonth dt.year ⟨dt.month.val - 1, by have := dt.month.isLt; omega⟩ then
      ⟨dt.year, ⟨dt.month.val - 1, by have := dt.month.isLt; omega⟩, dt.day⟩
    else
      ⟨dt.year, dt.month,
        ⟨dt.day.val - daysInMonth dt.year ⟨dt.month.val - 1, by have := dt.month.isLt; omega⟩,
          by have := dt.day.isLt; omega⟩⟩

/-- Result of JavaScript `d.setFullYear(d.getFullYear() - 1)`: move to the
previous year, overflowing Feb 29 into Mar 1 when the previous year is not a
leap year. -/
def stepBackYear (dt : JDate) : JDate :=
  if dt.day.val ≤ daysInMonth (dt.year - 1) dt.month then
    ⟨dt.year - 1, dt.month, dt.day⟩
  else
    ⟨dt.year - 1, ⟨(dt.month.val + 1) % 12, Nat.mod_lt _ (by omega)⟩,
      ⟨dt.day.val - daysInMonth (dt.year - 1) dt.month, by have := dt.day.isLt; omega⟩⟩

theorem ordD_stepBackMonth_lt (dt : JDate) : ordD (stepBackMonth dt) < ordD dt := by
  unfold stepBackMonth
  have hm := dt.month.isLt
  have hd := dt.day.isLt
  by_cases h0 : dt.month.val = 0
  · rw [if_pos h0]
    have h31 : daysInMonth (dt.year - 1) ⟨11, by omega⟩ = 31 := daysInMonth_eleven _
    split
    · simp only [ordD]
      omega
    · rename_i hover
      rw [h31] at hover
      omega
  · rw [if_neg h0]
    have hge := daysInMonth_ge dt.year ⟨dt.month.val - 1, by omega⟩
    have hle := daysInMonth_le dt.year ⟨dt.month.val - 1, by omega⟩
    split
    · simp only [ordD]
      omega
    · simp only [ordD]
      omega

theorem ordD_stepBackYear_lt (dt : JDate) : ordD (stepBackYear dt) < ordD dt := by
  unfold stepBackYear
  have hm := dt.month.isLt
  have hd := dt.day.isLt
  have hge := daysInMonth_ge (dt.year - 1) dt.month
  have hle := daysInMonth_le (dt.year - 1) dt.month
  split
  · simp only [ordD]
    omega
  · rename_i hover
    have h11 : dt.month.val ≠ 11 := by
      intro h
      have h31 : daysInMonth (dt.year - 1) dt.month = 31 := by
        have heq : dt.month = ⟨11, by omega⟩ := Fin.ext h
        rw [heq]; exact daysInMonth_eleven _
      omega
    have hmod : (dt.month.val + 1) % 12 = dt.month.val + 1 := by omega
    simp only [ordD, hmod]
    omega

/-- Embedding of the backward-stepping `while (subscriptionStart > monthDate)`
loops in `generateChartData`: repeatedly step the assumed start date back by
one billing period (one month when `monthly`, else one year) until it is on or
before `target`. -/
def rewind (monthly : Bool) (target : JDate) (s : JDate) : JDate :=
  if dateLt target s then
    rewind monthly target (if monthly then stepBackMonth s else stepBackYear s)
  else s
termination_by (ordD s - ordD target).toNat
decreasing_by
  simp only [dite_eq_ite]
  have h1 : ordD target < ordD s := ordD_lt_of_dateLt (by assumption)
  have h2 : ordD (if monthly then stepBackMonth s else stepBackYear s) < ordD s := by
    split
    · exact ordD_stepBackMonth_lt s
    · exact ordD_stepBackYear_lt s
  omega

/-- After the backward-stepping loop exits, the assumed start date is on or
before the target month. -/
theorem rewind_le (monthly : Bool) (target s : JDate) :
    dateLe (rewind monthly target s) target := by
  induction s using rewind.induct monthly target with
  | case1 s h ih =>
    rw [rewind, if_pos h]
    exact ih
  | case2 s h =>
    rw [rewind, if_neg h]
    exact h

/-- Short month names used by `toLocaleDateString("en-US", { month: "short" })`. -/
def monthNames : List String :=
  ["Jan", "Feb", "Mar", "Apr", "May", "Jun",
   "Jul", "Aug", "Sep", "Oct", "Nov", "Dec"]

/-- Short name of a zero-based month. -/
def monthShort (m : Fin 12) : String :=
  monthNames.get ⟨m.val, by simp [monthNames]⟩

/-- Rounding to two decimal places, as performed by `Number(x.toFixed(2))` on
the non-negative amounts occurring in this code. -/
def round2 (q : ℚ) : ℚ := ((round (q * 100) : ℤ) : ℚ) / 100

/-- Billing cycle enumeration from the subscription data model. -/
inductive BillingCycle
  | monthly
  | annually
deriving DecidableEq, Repr

/-- Subscription record as consumed by the dashboard and registry. -/
structure Subscription where
  id : String
  name : String
  plan : String
  cost : ℚ
  billingCycle : BillingCycle
  renewalDate : JDate
  category : String
deriving DecidableEq, Repr

/-- Monthly-normalized cost: `sub.billingCycle === "annually" ? sub.cost / 12 : sub.cost`. -/
def normalizedMonthlyCost (sub : Subscription) : ℚ :=
  if sub.billingCycle = BillingCycle.annually then sub.cost / 12 else sub.cost

/-- Embedding of `calculateMonthlySpend`: reduce over the subscriptions,
adding each one's monthly-normalized cost to the accumulator, starting at 0. -/
def calculateMonthlySpend (subs : List Subscription) : ℚ :=
  subs.foldl (fun total sub => total + normalizedMonthlyCost sub) 0

/-- Embedding of `getNextRenewal`: `"N/A"` on an empty collection; otherwise
filter to renewals on or after today, sort ascending by renewal timestamp,
and format the first as `"Mon D"`; `"N/A"` when the filtered list is empty. -/
def getNextRenewal (today : JDate) (subs : List Subscription) : String :=
  if subs.length = 0 then "N/A"
  else
    match (subs.filter (fun sub => dateLe today sub.renewalDate)).mergeSort
        (fun a b => ordD a.renewalDate ≤ ordD b.renewalDate) with
    | [] => "N/A"
    | next :: _ => monthShort next.renewalDate.month ++ " " ++ toString next.renewalDate.day.val

/-- Accumulation step of the `categoryTotals` object in `getCategorySpending`:
add `c` to the entry for key `cat`, inserting the key at the end when absent
(JavaScript objects preserve insertion order of string keys). -/
def addToTotals (l : List (String × ℚ)) (cat : String) (c : ℚ) : List (String × ℚ) :=
  match l with
  | [] => [(cat, c)]
  | (k, v) :: rest =>
    if k = cat then (k, v + c) :: rest else (k, v) :: addToTotals rest cat c

/-- The `categoryTotals` map built by the `forEach` loop in `getCategorySpending`. -/
def buildCategoryTotals (subs : List Subscription) : List (String × ℚ) :=
  subs.foldl (fun l sub => addToTotals l sub.category (normalizedMonthlyCost sub)) []

/-- Embedding of `getCategoryColor`: fixed category-to-color table with a
default color for unknown categories. -/
def getCategoryColor (category : String) : String :=
  if category = "Entertainment" then "#2563eb"
  else if category = "Music" then "#3b82f6"
  else if category = "Productivity" then "#10b981"
  else if category = "Design" then "#f59e0b"
  else if category = "Shopping" then "#ef4444"
  else "#64748b"

/-- One element of the array returned by `getCategorySpending`. -/
structure CategoryBucket where
  category : String
  spend : ℚ
  percentage : ℤ
  color : String
deriving DecidableEq, Repr

/-- Embedding of `getCategorySpending`: empty on an empty collection or zero
total monthly spend; otherwise one bucket per `categoryTotals` entry with
`spend` rounded to two decimals and `percentage` the rounded share of total. -/
def getCategorySpending (subs : List Subscription) : List CategoryBucket :=
  if subs.length = 0 then []
  else if calculateMonthlySpend subs = 0 then []
  else
    (buildCategoryTotals subs).map (fun p =>
      ⟨p.1, round2 p.2, round (p.2 / calculateMonthlySpend subs * 100),
        getCategoryColor p.1⟩)

/-- Sum of normalized monthly costs over the subscriptions of one category:
the quantity the specification describes as a bucket's spend. -/
def categorySum (subs : List Subscription) (cat : String) : ℚ :=
  ((subs.filter (fun s => s.category == cat)).map normalizedMonthlyCost).sum

/-- Value bound to a key in an association list (proof helper for reasoning
about the `categoryTotals` object). -/
def lookupTot (l : List (String × ℚ)) (k : String) : Option ℚ :=
  match l with
  | [] => none
  | (k', v) :: rest => if k' = k then some v else lookupTot rest k

/-- Embedding of `getLastMonthSpend`: step each subscription's renewal date
back by one billing period and count its normalized cost when the assumed
start is on or before one month ago. -/
def getLastMonthSpend (today : JDate) (subs : List Subscription) : ℚ :=
  subs.foldl (fun total sub =>
    if dateLe
        (if sub.billingCycle = BillingCycle.monthly then stepBackMonth sub.renewalDate
         else stepBackYear sub.renewalDate)
        (stepBackMonth today)
    then total + normalizedMonthlyCost sub
    else total) 0

/-- Embedding of the `changePercentage` expression computed in the component
body: relative change of current versus last-month spend, `0` on a
non-positive baseline. -/
def changePercentage (today : JDate) (subs : List Subscription) : ℚ :=
  if 0 < getLastMonthSpend today subs then
    (calculateMonthlySpend subs - getLastMonthSpend today subs) / getLastMonthSpend today subs * 100
  else 0

/-- First day of the month `i` months before `today`, as produced by
`new Date(today.getFullYear(), today.getMonth() - i, 1)`. -/
def monthSub (today : JDate) (i : ℕ) : JDate :=
  if h : i ≤ today.month.val then
    ⟨today.year, ⟨today.month.val - i, by have := today.month.isLt; omega⟩, ⟨1, by omega⟩⟩
  else
    ⟨today.year - 1, ⟨today.month.val + 12 - i, by have := today.month.isLt; omega⟩,
      ⟨1, by omega⟩⟩

/-- One element of the array returned by `generateChartData`. -/
structure ChartPoint where
  name : String
  total : ℚ
deriving DecidableEq, Repr

/-- Raw (pre-jitter) month estimate accumulated by the inner `forEach` loop of
`generateChartData`: for each subscription, rewind the renewal date to an
assumed start on or before `monthDate`, then include the normalized cost when
the assumed start is on or before `monthDate`. -/
def monthSpendRaw (subs : List Subscription) (monthDate : JDate) : ℚ :=
  subs.foldl (fun monthSpend sub =>
    if dateLe
        (rewind (decide (sub.billingCycle = BillingCycle.monthly)) monthDate sub.renewalDate)
        monthDate
    then monthSpend + normalizedMonthlyCost sub
    else monthSpend) 0

/-- Embedding of `generateChartData`, with the `Math.random()` stream made an
explicit parameter `rand` (one draw per emitted point, in emission order):
twelve points for the months `today - 11 ... today`, each the raw month
estimate perturbed by `(rand j - 0.5) * 0.3`, clamped below at 0 and rounded
to two decimals. -/
def generateChartData (rand : ℕ → ℚ) (today : JDate) (subs : List Subscription) :
    List ChartPoint :=
  (List.range 12).map (fun j =>
    let monthDate := monthSub today (11 - j)
    let monthSpend := monthSpendRaw subs monthDate
    let variation := (rand j - 1/2) * (3/10)
    ⟨monthShort monthDate.month, round2 (max 0 (monthSpend * (1 + variation)))⟩)

/-- Lower-casing of a string, as `String.prototype.toLowerCase` on the
characters of this model. -/
def toLowerStr (s : String) : String := String.mk (s.toList.map Char.toLower)

/-- Whitespace trimming at both ends, as `String.prototype.trim`. -/
def trimStr (s : String) : String :=
  String.mk
    (((s.toList.dropWhile Char.isWhitespace).reverse.dropWhile Char.isWhitespace).reverse)

/-- Test `s.startsWith(p)` on the characters of this model. -/
def startsWithStr (s p : String) : Bool := p.toList.isPrefixOf s.toList

/-- Substring test `hay.includes(pat)`. -/
def strIncludes (hay pat : String) : Bool :=
  hay.toList.tails.any (fun t => pat.toList.isPrefixOf t)

/-- Filter predicate of `filteredAndSortedSubscriptions`: case-insensitive
substring match against the name, and category equality unless the filter is
`"all"`. -/
def matchesControls (searchTerm filterBy : String) (sub : Subscription) : Bool :=
  strIncludes (toLowerStr sub.name) (toLowerStr searchTerm) &&
    (filterBy == "all" || sub.category == filterBy)

/-- Non-strict order corresponding to the sort comparator of
`filteredAndSortedSubscriptions`; `nameCmp` stands for the locale-aware
`localeCompare`. An element `a` may be placed before `b` exactly when the
comparator is non-positive; the unknown sort key comparator is constant 0. -/
def sortLe (nameCmp : String → String → ℤ) (sortBy : String) (a b : Subscription) : Bool :=
  if sortBy = "name" then nameCmp a.name b.name ≤ 0
  else if sortBy = "cost" then b.cost - a.cost ≤ 0
  else if sortBy = "renewal" then ordD a.renewalDate - ordD b.renewalDate ≤ 0
  else true

/-- Embedding of `filteredAndSortedSubscriptions`: filter by the search term
and category filter, then sort by the selected key. -/
def filteredAndSortedSubscriptions (nameCmp : String → String → ℤ)
    (searchTerm filterBy sortBy : String) (subs : List Subscription) : List Subscription :=
  (subs.filter (matchesControls searchTerm filterBy)).mergeSort (sortLe nameCmp sortBy)

/-- Payment form fields of the payment modal. -/
structure PaymentInfo where
  cardNumber : String
  expiryDate : String
  cvv : String
  cardholderName : String
deriving DecidableEq, Repr

/-- The four wizard steps of the payment modal. -/
inductive PaymentStep
  | payment
  | summary
  | processing
  | success
deriving DecidableEq, Repr

/-- The `errors` object of the payment modal; a field is `some msg` exactly
when `validatePayment` put a message under that key. -/
structure PaymentErrors where
  cardNumber : Option String
  expiryDate : Option String
  cvv : Option String
  cardholderName : Option String
deriving DecidableEq, Repr

/-- Number of keys present in the errors object. -/
def errorCount (e : PaymentErrors) : ℕ :=
  (if e.cardNumber.isSome then 1 else 0) + (if e.expiryDate.isSome then 1 else 0) +
    (if e.cvv.isSome then 1 else 0) + (if e.cardholderName.isSome then 1 else 0)

/-- Number of decimal digits in a string, i.e. the length after the
`replace(/\D/g, "")` strip. -/
def digitCount (s : String) : ℕ := (s.toList.filter Char.isDigit).length

/-- Embedding of `validatePayment`'s `newErrors` object. -/
def validatePayment (info : PaymentInfo) : PaymentErrors where
  cardNumber :=
    if trimStr info.cardNumber = "" then some "Card number is required"
    else if digitCount info.cardNumber < 13 then some "Invalid card number"
    else none
  expiryDate := if trimStr info.expiryDate = "" then some "Expiry date is required" else none
  cvv := if trimStr info.cvv = "" then some "CVV is required" else none
  cardholderName :=
    if trimStr info.cardholderName = "" then some "Cardholder name is required" else none

/-- Local state of the payment modal, plus a `tornDown` flag recording whether
the flow has been closed/unmounted. -/
structure FlowState where
  currentStep : PaymentStep
  paymentInfo : PaymentInfo
  errors : PaymentErrors
  tornDown : Bool
deriving DecidableEq, Repr

/-- Embedding of `handleContinueToSummary`: run `validatePayment` (which
stores `newErrors`), and advance to `summary` exactly when no error key was
produced. -/
def handleContinueToSummary (s : FlowState) : FlowState :=
  if errorCount (validatePayment s.paymentInfo) = 0 then
    { s with errors := validatePayment s.paymentInfo, currentStep := PaymentStep.summary }
  else { s with errors := validatePayment s.paymentInfo }

/-- Embedding of `handleConfirmPayment`: immediately move to `processing` and
schedule a deferred callback; the returned function is the body of the
`setTimeout` callback, acting on whatever the flow state is when the timer
fires 3 seconds later. -/
def handleConfirmPayment (s : FlowState) : FlowState × (FlowState → FlowState) :=
  ({ s with currentStep := PaymentStep.processing },
   fun later => { later with currentStep := PaymentStep.success })

/-- Teardown of the payment flow (modal closed/unmounted). -/
def closeFlow (s : FlowState) : FlowState := { s with tornDown := true }

/-- Digits of the input, after `replace(/\s+/g, "").replace(/[^0-9]/gi, "")`. -/
def stripNonDigits (s : String) : String := String.mk (s.toList.filter Char.isDigit)

/-- Blocks of four characters starting at offsets 0, 4, 8, ..., as produced by
the `for (i = 0; i < len; i += 4)` loop of `formatCardNumber`. -/
def chunksOf4 (l : List Char) : List (List Char) :=
  (List.range ((l.length + 3) / 4)).map (fun i => (l.drop (4 * i)).take 4)

/-- Embedding of `formatCardNumber`: strip non-digits; the regex
`/\d{4,16}/g` on the all-digit remainder matches its first up-to-16 digits
when at least 4 are present, which are then joined in blocks of 4. -/
def formatCardNumber (value : String) : String :=
  let v := stripNonDigits value
  let m := if 4 ≤ v.toList.length then String.mk (v.toList.take 16) else ""
  let parts := chunksOf4 m.toList
  if parts.length ≠ 0 then String.intercalate " " (parts.map String.mk) else v

/-- Embedding of `getCardType`: classify by the leading digit of the stripped
card number. -/
def getCardType (cardNumber : String) : String :=
  if startsWithStr (stripNonDigits cardNumber) "4" then "Visa"
  else if startsWithStr (stripNonDigits cardNumber) "5"
      || startsWithStr (stripNonDigits cardNumber) "2" then "Mastercard"
  else if startsWithStr (stripNonDigits cardNumber) "3" then "American Express"
  else ""

/-- Sample subscription used to instantiate universally quantified results. -/
def sampleSubscription : Subscription :=
  ⟨"1", "Netflix", "Premium", 199, BillingCycle.monthly,
    ⟨2025, ⟨7, by omega⟩, ⟨10, by omega⟩⟩, "Entertainment"⟩

/-- Payment-flow state right after the user confirmed payment from the
summary step: the failing input for the stale-callback claim. -/
def processingState : FlowState :=
  (handleConfirmPayment
    ⟨PaymentStep.summary, ⟨"4111 1111 1111 1111", "12/25", "123", "Jane Doe"⟩,
      ⟨none, none, none, none⟩, false⟩).1

/-- The deferred callback scheduled together with `processingState`. -/
def processingCallback : FlowState → FlowState :=
  (handleConfirmPayment
    ⟨PaymentStep.summary, ⟨"4111 1111 1111 1111", "12/25", "123", "Jane Doe"⟩,
      ⟨none, none, none, none⟩, false⟩).2

theorem foldl_add_eq (f : Subscription → ℚ) (l : List Subscription) (a : ℚ) :
    l.foldl (fun t s => t + f s) a = a + (l.map f).sum := by
  induction l generalizing a with
  | nil => simp
  | cons s l ih => simp [ih, add_assoc]

/-- C1: for every subscription collection, the monthly spend total computed by
`calculateMonthlySpend` equals the sum over all subscriptions of the
normalized monthly cost, where an `annually` subscription contributes
`cost / 12` and any other billing cycle contributes `cost` unchanged; as a
pure function of the collection, the same collection always yields the same
total. -/
theorem calculateMonthlySpend_eq_sum_normalized (subs : List Subscription) :
    calculateMonthlySpend subs = (subs.map normalizedMonthlyCost).sum := by
  simpa [calculateMonthlySpend] using foldl_add_eq normalizedMonthlyCost subs 0

/-- C6: for every subscription collection with non-negative costs,
`changePercentage` equals `(monthlySpend - lastMonthSpend) / lastMonthSpend * 100`
whenever `lastMonthSpend > 0`, and is exactly `0` whenever
`lastMonthSpend = 0`, regardless of `monthlySpend`. -/
theorem changePercentage_spec (today : JDate) (subs : List Subscription)
    (_hc : ∀ sub ∈ subs, 0 ≤ sub.cost) :
    (0 < getLastMonthSpend today subs →
      changePercentage today subs =
        (calculateMonthlySpend subs - getLastMonthSpend today subs) /
          getLastMonthSpend today subs * 100) ∧
    (getLastMonthSpend today subs = 0 → changePercentage today subs = 0) := by
  constructor
  · intro h
    rw [changePercentage, if_pos h]
  · intro h
    rw [changePercentage, if_neg (by rw [h]; exact lt_irrefl 0)]

theorem changePercentage_spec_witness :
    getLastMonthSpend ⟨2025, ⟨5, by omega⟩, ⟨15, by omega⟩⟩ [] = 0 ∧
    changePercentage ⟨2025, ⟨5, by omega⟩, ⟨15, by omega⟩⟩ [] = 0 :=
  ⟨rfl, (changePercentage_spec ⟨2025, ⟨5, by omega⟩, ⟨15, by omega⟩⟩ [] (by simp)).2 rfl⟩

/-- C3: for every subscription collection and every target month date, the
backward-stepping loop in `generateChartData` leaves an assumed start date on
or before the target month, so the inclusion test `subscriptionStart <=
monthDate` always succeeds, and the raw (pre-jitter) month estimate equals
the current total monthly spend from `calculateMonthlySpend`, regardless of
renewal dates and billing cycles. -/
theorem monthSpendRaw_eq_monthlySpend (subs : List Subscription) (monthDate : JDate) :
    (∀ sub ∈ subs,
      dateLe
        (rewind (decide (sub.billingCycle = BillingCycle.monthly)) monthDate sub.renewalDate)
        monthDate) ∧
    monthSpendRaw subs monthDate = calculateMonthlySpend subs := by
  constructor
  · intro sub _
    exact rewind_le _ _ _
  · unfold monthSpendRaw calculateMonthlySpend
    have hfun :
        (fun (monthSpend : ℚ) sub =>
          if dateLe
              (rewind (decide (sub.billingCycle = BillingCycle.monthly))
                monthDate sub.renewalDate)
              monthDate
          then monthSpend + normalizedMonthlyCost sub
          else monthSpend) =
        (fun (total : ℚ) sub => total + normalizedMonthlyCost sub) := by
      funext acc sub
      rw [if_pos (rewind_le _ _ _)]
    rw [hfun]

theorem monthSpendRaw_eq_monthlySpend_witness :
    dateLe
      (rewind (decide (sampleSubscription.billingCycle = BillingCycle.monthly))
        ⟨2025, ⟨0, by omega⟩, ⟨1, by omega⟩⟩ sampleSubscription.renewalDate)
      ⟨2025, ⟨0, by omega⟩, ⟨1, by omega⟩⟩ ∧
    monthSpendRaw [sampleSubscription] ⟨2025, ⟨0, by omega⟩, ⟨1, by omega⟩⟩ =
      calculateMonthlySpend [sampleSubscription] :=
  ⟨(monthSpendRaw_eq_monthlySpend [sampleSubscription] ⟨2025, ⟨0, by omega⟩, ⟨1, by omega⟩⟩).1
      sampleSubscription (by simp),
    (monthSpendRaw_eq_monthlySpend [sampleSubscription] ⟨2025, ⟨0, by omega⟩, ⟨1, by omega⟩⟩).2⟩

/-- C5: `getNextRenewal` is total (never an error): it returns the `"N/A"`
sentinel on an empty collection and whenever every renewal date is strictly
before today, and otherwise returns the minimum renewal date among
subscriptions renewing on or after today, formatted as `"Mon D"`. -/
theorem getNextRenewal_spec (today : JDate) (subs : List Subscription) :
    (subs = [] → getNextRenewal today subs = "N/A") ∧
    ((∀ sub ∈ subs, dateLt sub.renewalDate today) → getNextRenewal today subs = "N/A") ∧
    (∀ sub0 ∈ subs, dateLe today sub0.renewalDate →
      ∃ m ∈ subs, dateLe today m.renewalDate ∧
        (∀ sub ∈ subs, dateLe today sub.renewalDate →
          ordD m.renewalDate ≤ ordD sub.renewalDate) ∧
        getNextRenewal today subs =
          monthShort m.renewalDate.month ++ " " ++ toString m.renewalDate.day.val) := by
  refine ⟨fun h => by rw [h]; rfl, ?_, ?_⟩
  · intro hall
    by_cases hlen : subs.length = 0
    · rw [getNextRenewal, if_pos hlen]
    · rw [getNextRenewal, if_neg hlen]
      have hfil : subs.filter (fun sub => decide (dateLe today sub.renewalDate)) = [] := by
        rw [List.filter_eq_nil_iff]
        intro a ha
        simp only [decide_eq_true_eq]
        exact fun hd => hd (hall a ha)
      rw [hfil, List.mergeSort_nil]
  · intro sub0 h0 hle0
    have hlen : ¬ subs.length = 0 := by
      intro h
      rw [List.length_eq_zero] at h
      subst h
      exact absurd h0 (List.not_mem_nil _)
    have hm0 : sub0 ∈ subs.filter (fun sub => decide (dateLe today sub.renewalDate)) :=
      List.mem_filter.mpr ⟨h0, decide_eq_true hle0⟩
    have hperm :
        List.Perm
          ((subs.filter (fun sub => decide (dateLe today sub.renewalDate))).mergeSort
            (fun a b => decide (ordD a.renewalDate ≤ ordD b.renewalDate)))
          (subs.filter (fun sub => decide (dateLe today sub.renewalDate))) :=
      List.mergeSort_perm _ _
    have hsorted :=
      @List.sorted_mergeSort _
        (fun a b : Subscription => decide (ordD a.renewalDate ≤ ordD b.renewalDate))
        (fun a b c hab hbc =>
          decide_eq_true (le_trans (of_decide_eq_true hab) (of_decide_eq_true hbc)))
        (fun a b => by
          simpa using le_total (ordD a.renewalDate) (ordD b.renewalDate))
        (subs.filter (fun sub => decide (dateLe today sub.renewalDate)))
    cases hms :
        (subs.filter (fun sub => decide (dateLe today sub.renewalDate))).mergeSort
          (fun a b => decide (ordD a.renewalDate ≤ ordD b.renewalDate)) with
    | nil =>
      rw [hms] at hperm
      rw [hperm.symm.eq_nil] at hm0
      exact absurd hm0 (List.not_mem_nil _)
    | cons m tl =>
      rw [hms] at hperm hsorted
      have hmfil : m ∈ subs.filter (fun sub => decide (dateLe today sub.renewalDate)) :=
        hperm.mem_iff.mp (List.mem_cons_self m tl)
      have hmmem := (List.mem_filter.mp hmfil).1
      have hmle : dateLe today m.renewalDate :=
        of_decide_eq_true (List.mem_filter.mp hmfil).2
      refine ⟨m, hmmem, hmle, ?_, ?_⟩
      · intro sub hs hsle
        have hsfil : sub ∈ m :: tl :=
          hperm.symm.mem_iff.mp (List.mem_filter.mpr ⟨hs, decide_eq_true hsle⟩)
        rcases List.mem_cons.mp hsfil with h | h
        · rw [h]
        · exact of_decide_eq_true ((List.pairwise_cons.mp hsorted).1 sub h)
      · rw [getNextRenewal, if_neg hlen, hms]

theorem getNextRenewal_spec_witness :
    dateLe ⟨2025, ⟨0, by omega⟩, ⟨1, by omega⟩⟩ sampleSubscription.renewalDate ∧
    getNextRenewal ⟨2025, ⟨0, by omega⟩, ⟨1, by omega⟩⟩ [sampleSubscription] = "Aug 10" := by
  have h := (getNextRenewal_spec ⟨2025, ⟨0, by omega⟩, ⟨1, by omega⟩⟩ [sampleSubscription]).2.2
    sampleSubscription (by simp) (by decide)
  obtain ⟨m, hm, -, -, heq⟩ := h
  have hm' : m = sampleSubscription := by simpa using hm
  rw [hm'] at heq
  exact ⟨by decide, heq.trans (by decide)⟩

/-- C4: the code violates this claim. The callback scheduled by
`handleConfirmPayment` performs no teardown check: applied to the flow state
after the flow was closed while `processing`, it is not a no-op — it still
transitions the torn-down flow to `success`, mutating flow state after
close. -/
theorem handleConfirmPayment_callback_ignores_teardown :
    processingState.currentStep = PaymentStep.processing ∧
    (closeFlow processingState).tornDown = true ∧
    processingCallback (closeFlow processingState) ≠ closeFlow processingState ∧
    (processingCallback (closeFlow processingState)).currentStep = PaymentStep.success := by
  refine ⟨rfl, rfl, ?_, rfl⟩
  decide

/-- C10: `formatCardNumber` groups the digits of `"4111111111111111"` into
blocks of four, and `getCardType` classifies a card number by the leading
digit of its stripped form: `4` is Visa, `5` or `2` is Mastercard, `3` is
American Express, anything else detects no network; on the Visa test number
it returns `"Visa"`. -/
theorem cardFormatting_spec :
    formatCardNumber "4111111111111111" = "4111 1111 1111 1111" ∧
    getCardType "4111111111111111" = "Visa" ∧
    ∀ (s : String) (c : Char) (cs : List Char),
      (stripNonDigits s).toList = c :: cs →
      (c = '4' → getCardType s = "Visa") ∧
      (c = '5' ∨ c = '2' → getCardType s = "Mastercard") ∧
      (c = '3' → getCardType s = "American Express") ∧
      (c ≠ '4' → c ≠ '5' → c ≠ '2' → c ≠ '3' → getCardType s = "") := by
  refine ⟨by decide, by decide, ?_⟩
  intro s c cs h
  have hdata : (stripNonDigits s).data = c :: cs := h
  have hpre : ∀ d : Char,
      startsWithStr (stripNonDigits s) (String.mk [d]) = (d == c) := by
    intro d
    simp [startsWithStr, String.toList, hdata, List.isPrefixOf]
  have h4 := hpre '4'
  have h5 := hpre '5'
  have h2 := hpre '2'
  have h3 := hpre '3'
  refine ⟨?_, ?_, ?_, ?_⟩
  · intro hc
    subst hc
    simp_all [getCardType]
  · intro hc
    have hne : ¬ (c = '4') := by rcases hc with hc | hc <;> subst hc <;> decide
    rcases hc with hc | hc <;> subst hc <;> simp_all [getCardType]
  · intro hc
    subst hc
    simp_all [getCardType]
  · intro n4 n5 n2 n3
    have b4 : ('4' == c) = false := by simpa using fun hh => n4 hh.symm
    have b5 : ('5' == c) = false := by simpa using fun hh => n5 hh.symm
    have b2 : ('2' == c) = false := by simpa using fun hh => n2 hh.symm
    have b3 : ('3' == c) = false := by simpa using fun hh => n3 hh.symm
    simp_all [getCardType]

theorem cardFormatting_spec_witness :
    (stripNonDigits "5105 1051 0510 5100").toList =
      '5' :: "105105105105100".toList ∧
    getCardType "5105 1051 0510 5100" = "Mastercard" :=
  ⟨by decide,
    ((cardFormatting_spec.2.2 "5105 1051 0510 5100" '5' "105105105105100".toList
      (by decide)).2.1) (Or.inl rfl)⟩

theorem validatePayment_ok_iff (info : PaymentInfo) :
    errorCount (validatePayment info) = 0 ↔
      (trimStr info.cardNumber ≠ "" ∧ 13 ≤ digitCount info.cardNumber ∧
       trimStr info.expiryDate ≠ "" ∧ trimStr info.cvv ≠ "" ∧
       trimStr info.cardholderName ≠ "") := by
  unfold errorCount validatePayment
  split_ifs <;> simp_all

/-- C9: from the `payment` step, Continue moves the flow to `summary` exactly
when all four fields are non-empty after trimming and the card number has at
least 13 digits after stripping non-digits; on failure the step stays
`payment`, the stored errors carry a message exactly for each failing field,
and nothing else in the flow state changes. -/
theorem handleContinueToSummary_spec (info : PaymentInfo) (e0 : PaymentErrors) (td : Bool) :
    ((handleContinueToSummary ⟨PaymentStep.payment, info, e0, td⟩).currentStep =
        PaymentStep.summary ↔
      (trimStr info.cardNumber ≠ "" ∧ 13 ≤ digitCount info.cardNumber ∧
       trimStr info.expiryDate ≠ "" ∧ trimStr info.cvv ≠ "" ∧
       trimStr info.cardholderName ≠ "")) ∧
    (handleContinueToSummary ⟨PaymentStep.payment, info, e0, td⟩).paymentInfo = info ∧
    (handleContinueToSummary ⟨PaymentStep.payment, info, e0, td⟩).tornDown = td ∧
    (handleContinueToSummary ⟨PaymentStep.payment, info, e0, td⟩).errors =
      validatePayment info ∧
    (¬ (trimStr info.cardNumber ≠ "" ∧ 13 ≤ digitCount info.cardNumber ∧
        trimStr info.expiryDate ≠ "" ∧ trimStr info.cvv ≠ "" ∧
        trimStr info.cardholderName ≠ "") →
      (handleContinueToSummary ⟨PaymentStep.payment, info, e0, td⟩).currentStep =
        PaymentStep.payment) ∧
    ((validatePayment info).cardNumber.isSome ↔
      (trimStr info.cardNumber = "" ∨ digitCount info.cardNumber < 13)) ∧
    ((validatePayment info).expiryDate.isSome ↔ trimStr info.expiryDate = "") ∧
    ((validatePayment info).cvv.isSome ↔ trimStr info.cvv = "") ∧
    ((validatePayment info).cardholderName.isSome ↔ trimStr info.cardholderName = "") := by
  have hok := validatePayment_ok_iff info
  refine ⟨?_, ?_, ?_, ?_, ?_, ?_, ?_, ?_, ?_⟩
  · constructor
    · intro hstep
      by_contra hno
      rw [handleContinueToSummary, if_neg (fun hz => hno (hok.mp hz))] at hstep
      simp at hstep
    · intro hyes
      rw [handleContinueToSummary, if_pos (hok.mpr hyes)]
  · unfold handleContinueToSummary
    split <;> rfl
  · unfold handleContinueToSummary
    split <;> rfl
  · unfold handleContinueToSummary
    split <;> rfl
  · intro hno
    rw [handleContinueToSummary, if_neg (fun hz => hno (hok.mp hz))]
  · unfold validatePayment
    split_ifs <;> simp_all
  · unfold validatePayment
    split_ifs <;> simp_all
  · unfold validatePayment
    split_ifs <;> simp_all
  · unfold validatePayment
    split_ifs <;> simp_all

theorem handleContinueToSummary_spec_witness :
    (handleContinueToSummary
        ⟨PaymentStep.payment, ⟨"4111 1111 1111 1111", "12/25", "123", ""⟩,
          ⟨none, none, none, none⟩, false⟩).currentStep = PaymentStep.payment ∧
    (validatePayment ⟨"4111 1111 1111 1111", "12/25", "123", ""⟩).cardholderName.isSome =
      true := by
  have h := handleContinueToSummary_spec ⟨"4111 1111 1111 1111", "12/25", "123", ""⟩
    ⟨none, none, none, none⟩ false
  exact ⟨h.2.2.2.2.1 (by decide), by decide⟩

theorem round_rat_eq (q : ℚ) (n : ℤ) (h1 : (n : ℚ) ≤ q + 1/2) (h2 : q + 1/2 < n + 1) :
    round q = n := by
  rw [round_eq]
  exact Int.floor_eq_iff.mpr ⟨h1, h2⟩

theorem lookupTot_isSome_iff (l : List (String × ℚ)) (k : String) :
    (lookupTot l k).isSome ↔ k ∈ l.map Prod.fst := by
  induction l with
  | nil => simp [lookupTot]
  | cons p rest ih =>
    obtain ⟨a, v⟩ := p
    rw [List.map_cons, List.mem_cons]
    by_cases h : a = k
    · subst h
      simp [lookupTot]
    · simp only [lookupTot, if_neg h]
      rw [ih]
      constructor
      · exact Or.inr
      · rintro (hh | hh)
        · exact absurd hh.symm h
        · exact hh

theorem lookupTot_eq_none (l : List (String × ℚ)) (k : String)
    (h : k ∉ l.map Prod.fst) : lookupTot l k = none :=
  Option.not_isSome_iff_eq_none.mp ((lookupTot_isSome_iff l k).not.mpr h)

theorem lookupTot_of_mem_nodup :
    ∀ (l : List (String × ℚ)), (l.map Prod.fst).Nodup →
      ∀ p ∈ l, lookupTot l p.1 = some p.2 := by
  intro l
  induction l with
  | nil => exact fun _ p hp => absurd hp (List.not_mem_nil _)
  | cons q rest ih =>
    intro hnd p hp
    obtain ⟨a, v⟩ := q
    rw [List.map_cons, List.nodup_cons] at hnd
    rcases List.mem_cons.mp hp with h | h
    · subst h
      simp [lookupTot]
    · have hmem : p.1 ∈ rest.map Prod.fst := List.mem_map_of_mem Prod.fst h
      have ha : ¬ a = p.1 := fun hh => hnd.1 (hh ▸ hmem)
      simp only [lookupTot, if_neg ha]
      exact ih hnd.2 p h

theorem lookupTot_addToTotals (l : List (String × ℚ)) (cat : String) (c : ℚ) (k : String) :
    lookupTot (addToTotals l cat c) k =
      if k = cat then some ((lookupTot l k).getD 0 + c) else lookupTot l k := by
  induction l with
  | nil =>
    by_cases h : k = cat
    · subst h
      simp [addToTotals, lookupTot]
    · simp only [addToTotals, lookupTot, if_neg h, if_neg (fun hh : cat = k => h hh.symm)]
  | cons q rest ih =>
    obtain ⟨a, v⟩ := q
    by_cases h1 : a = cat
    · subst h1
      simp only [addToTotals, if_pos rfl]
      by_cases h2 : a = k
      · subst h2
        simp only [lookupTot, if_pos rfl, if_pos rfl]
        rfl
      · simp only [lookupTot, if_neg h2, if_neg (fun hh : k = a => h2 hh.symm)]
    · simp only [addToTotals, if_neg h1]
      by_cases h2 : a = k
      · subst h2
        simp [lookupTot, h1]
      · simp only [lookupTot, if_neg h2, ih]

theorem keys_addToTotals (l : List (String × ℚ)) (cat : String) (c : ℚ) :
    (addToTotals l cat c).map Prod.fst =
      if cat ∈ l.map Prod.fst then l.map Prod.fst else l.map Prod.fst ++ [cat] := by
  induction l with
  | nil => simp [addToTotals]
  | cons q rest ih =>
    obtain ⟨a, v⟩ := q
    by_cases h1 : a = cat
    · subst h1
      simp [addToTotals]
    · simp only [addToTotals, if_neg h1, List.map_cons]
      rw [ih]
      have hne : cat ≠ a := fun hh => h1 hh.symm
      by_cases h2 : cat ∈ rest.map Prod.fst
      · simp [h2, hne]
      · simp [h2, hne]

theorem categorySum_nil (k : String) : categorySum [] k = 0 := rfl

theorem categorySum_cons (sub : Subscription) (rest : List Subscription) (k : String) :
    categorySum (sub :: rest) k =
      (if sub.category = k then normalizedMonthlyCost sub else 0) + categorySum rest k := by
  by_cases h : sub.category = k <;> simp [categorySum, h]

theorem lookupTot_build_gen (subs : List Subscription) :
    ∀ (acc : List (String × ℚ)) (k : String),
      lookupTot
        (subs.foldl (fun l sub => addToTotals l sub.category (normalizedMonthlyCost sub)) acc)
        k =
      if k ∈ acc.map Prod.fst ∨ k ∈ subs.map (fun s => s.category)
      then some ((lookupTot acc k).getD 0 + categorySum subs k)
      else none := by
  induction subs with
  | nil =>
    intro acc k
    simp only [List.foldl_nil, List.map_nil, List.not_mem_nil, or_false, categorySum_nil,
      add_zero]
    by_cases h : k ∈ acc.map Prod.fst
    · rw [if_pos h]
      obtain ⟨v, hv⟩ := Option.isSome_iff_exists.mp ((lookupTot_isSome_iff acc k).mpr h)
      rw [hv]
      rfl
    · rw [if_neg h]
      exact lookupTot_eq_none acc k h
  | cons sub rest ih =>
    intro acc k
    have hsplit : ∀ key : String,
        key ∈ (if sub.category ∈ acc.map Prod.fst then acc.map Prod.fst
          else acc.map Prod.fst ++ [sub.category]) ↔
        (key ∈ acc.map Prod.fst ∨ key = sub.category) := by
      intro key
      split
      · rename_i hin
        constructor
        · exact Or.inl
        · rintro (hh | hh)
          · exact hh
          · exact hh ▸ hin
      · simp [List.mem_append]
    have hcons : k ∈ (sub :: rest).map (fun s => s.category) ↔
        (k = sub.category ∨ k ∈ rest.map (fun s => s.category)) := by
      rw [List.map_cons, List.mem_cons]
    simp only [List.foldl_cons]
    rw [ih, keys_addToTotals, lookupTot_addToTotals, categorySum_cons]
    by_cases hk : k = sub.category
    · have hl : (k ∈ (if sub.category ∈ acc.map Prod.fst then acc.map Prod.fst
          else acc.map Prod.fst ++ [sub.category]) ∨
            k ∈ rest.map (fun s => s.category)) :=
        Or.inl ((hsplit k).mpr (Or.inr hk))
      rw [if_pos hl, if_pos (Or.inr (hcons.mpr (Or.inl hk))), if_pos hk,
        if_pos hk.symm]
      simp [add_assoc]
    · have hiff : (k ∈ (if sub.category ∈ acc.map Prod.fst then acc.map Prod.fst
          else acc.map Prod.fst ++ [sub.category]) ∨
            k ∈ rest.map (fun s => s.category)) ↔
          (k ∈ acc.map Prod.fst ∨ k ∈ (sub :: rest).map (fun s => s.category)) := by
        constructor
        · rintro (hm | hm)
          · rcases (hsplit k).mp hm with hh | hh
            · exact Or.inl hh
            · exact absurd hh hk
          · exact Or.inr (hcons.mpr (Or.inr hm))
        · rintro (hm | hm)
          · exact Or.inl ((hsplit k).mpr (Or.inl hm))
          · rcases hcons.mp hm with hh | hh
            · exact absurd hh hk
            · exact Or.inr hh
      rw [if_neg hk, if_neg (fun hh : sub.category = k => hk hh.symm)]
      by_cases hcond : k ∈ acc.map Prod.fst ∨ k ∈ (sub :: rest).map (fun s => s.category)
      · rw [if_pos (hiff.mpr hcond), if_pos hcond]
        simp
      · rw [if_neg (fun hh => hcond (hiff.mp hh)), if_neg hcond]

theorem keys_build_nodup (subs : List Subscription) :
    ∀ acc : List (String × ℚ), (acc.map Prod.fst).Nodup →
      ((subs.foldl
        (fun l sub => addToTotals l sub.category (normalizedMonthlyCost sub)) acc).map
          Prod.fst).Nodup := by
  induction subs with
  | nil => intro acc h; simpa using h
  | cons sub rest ih =>
    intro acc h
    simp only [List.foldl_cons]
    apply ih
    rw [keys_addToTotals]
    split
    · exact h
    · rename_i hnotin
      simp [List.nodup_append, h, hnotin]

/-- C2 counterexample: the claim asserts a bucket's `spend` equals the exact
sum of normalized monthly costs for the category, but the code stores
`Number(amount.toFixed(2))`: a single annual subscription of cost 100 in
category Music has normalized sum 25/3 while the emitted bucket's spend is
the rounded 8.33. -/
theorem getCategorySpending_spend_is_rounded :
    categorySum
      [⟨"1", "Pro", "Annual", 100, BillingCycle.annually, ⟨2025, 7, 10⟩, "Music"⟩]
      "Music" = 25/3 ∧
    getCategorySpending
      [⟨"1", "Pro", "Annual", 100, BillingCycle.annually, ⟨2025, 7, 10⟩, "Music"⟩] =
      [⟨"Music", 833/100, 100, "#3b82f6"⟩] ∧
    (833/100 : ℚ) ≠ 25/3 := by
  have hnorm : normalizedMonthlyCost
      ⟨"1", "Pro", "Annual", 100, BillingCycle.annually, ⟨2025, 7, 10⟩, "Music"⟩ =
      25/3 := by
    rw [normalizedMonthlyCost, if_pos rfl]
    norm_num
  have hsum : categorySum
      [⟨"1", "Pro", "Annual", 100, BillingCycle.annually, ⟨2025, 7, 10⟩, "Music"⟩]
      "Music" = 25/3 := by
    simp [categorySum, hnorm]
  have htotal : calculateMonthlySpend
      [⟨"1", "Pro", "Annual", 100, BillingCycle.annually, ⟨2025, 7, 10⟩, "Music"⟩] =
      25/3 := by
    simp [calculateMonthlySpend, hnorm]
  have hround : round ((2500 : ℚ)/3) = 833 := round_rat_eq _ _ (by norm_num) (by norm_num)
  have hround2 : round2 (25/3 : ℚ) = 833/100 := by
    rw [round2]
    norm_num [hround]
  have hpct : round ((25/3 : ℚ) / (25/3) * 100) = 100 := by
    have h1 : ((25 : ℚ)/3) / (25/3) * 100 = 100 := by norm_num
    rw [h1]
    exact round_rat_eq _ _ (by norm_num) (by norm_num)
  have hbuild : buildCategoryTotals
      [⟨"1", "Pro", "Annual", 100, BillingCycle.annually, ⟨2025, 7, 10⟩, "Music"⟩] =
      [("Music", 25/3)] := by
    simp only [buildCategoryTotals, List.foldl_cons, List.foldl_nil, addToTotals, hnorm]
  have hcolor : getCategoryColor "Music" = "#3b82f6" := by decide
  refine ⟨hsum, ?_, by norm_num⟩
  rw [getCategorySpending, if_neg (by simp), if_neg (by rw [htotal]; norm_num), hbuild,
    htotal, List.map_cons, List.map_nil, hround2, hpct, hcolor]

/-- C2 (amended): `getCategorySpending` returns an empty result set on an
empty collection and whenever total monthly spend is zero; otherwise it
produces one bucket per distinct category of the collection, whose `spend`
is the per-category sum of normalized monthly costs rounded to two decimal
places (the code stores `Number(amount.toFixed(2))`, not the exact sum), and
whose `percentage` is `round(rawCategorySum / totalMonthlySpend * 100)`
computed from the unrounded sum, with no correction making percentages sum to
100. -/
theorem getCategorySpending_spec (subs : List Subscription) :
    (subs = [] → getCategorySpending subs = []) ∧
    (calculateMonthlySpend subs = 0 → getCategorySpending subs = []) ∧
    ((getCategorySpending subs).map (fun b => b.category)).Nodup ∧
    (∀ b ∈ getCategorySpending subs,
      b.category ∈ subs.map (fun s => s.category) ∧
      b.spend = round2 (categorySum subs b.category) ∧
      b.percentage =
        round (categorySum subs b.category / calculateMonthlySpend subs * 100) ∧
      b.color = getCategoryColor b.category) ∧
    (calculateMonthlySpend subs ≠ 0 →
      ∀ sub ∈ subs, ∃ b ∈ getCategorySpending subs, b.category = sub.category) := by
  by_cases hlen : subs.length = 0
  · have hnil : subs = [] := List.length_eq_zero.mp hlen
    subst hnil
    exact ⟨fun _ => rfl, fun _ => rfl, by simp [getCategorySpending],
      by simp [getCategorySpending], fun _ sub hs => absurd hs (List.not_mem_nil _)⟩
  · by_cases htot : calculateMonthlySpend subs = 0
    · have hres : getCategorySpending subs = [] := by
        rw [getCategorySpending, if_neg hlen, if_pos htot]
      exact ⟨fun h => (hlen (by rw [h]; rfl)).elim, fun _ => hres,
        by rw [hres]; simp, by rw [hres]; simp, fun hne => absurd htot hne⟩
    · have hres : getCategorySpending subs =
          (buildCategoryTotals subs).map (fun p =>
            ⟨p.1, round2 p.2, round (p.2 / calculateMonthlySpend subs * 100),
              getCategoryColor p.1⟩) := by
        rw [getCategorySpending, if_neg hlen, if_neg htot]
      have hnd : ((buildCategoryTotals subs).map Prod.fst).Nodup :=
        keys_build_nodup subs [] (by simp)
      have hpair : ∀ p ∈ buildCategoryTotals subs,
          p.1 ∈ subs.map (fun s => s.category) ∧ p.2 = categorySum subs p.1 := by
        intro p hp
        have hsome : lookupTot (buildCategoryTotals subs) p.1 = some p.2 :=
          lookupTot_of_mem_nodup _ hnd p hp
        have hgen := lookupTot_build_gen subs [] p.1
        rw [buildCategoryTotals] at hsome
        rw [hsome] at hgen
        by_cases hin : p.1 ∈ subs.map (fun s => s.category)
        · refine ⟨hin, ?_⟩
          rw [if_pos (Or.inr hin)] at hgen
          simpa [lookupTot] using hgen
        · rw [if_neg (by simpa using hin)] at hgen
          exact absurd hgen (by simp)
      refine ⟨fun h => (hlen (by rw [h]; rfl)).elim, fun h => absurd h htot, ?_, ?_, ?_⟩
      · rw [hres, List.map_map]
        have hcomp :
            ((fun b : CategoryBucket => b.category) ∘ (fun p : String × ℚ =>
              (⟨p.1, round2 p.2, round (p.2 / calculateMonthlySpend subs * 100),
                getCategoryColor p.1⟩ : CategoryBucket))) = Prod.fst := by
          funext p
          rfl
        rw [hcomp]
        exact hnd
      · intro b hb
        rw [hres] at hb
        obtain ⟨p, hp, hpb⟩ := List.mem_map.mp hb
        obtain ⟨hin, hval⟩ := hpair p hp
        subst hpb
        exact ⟨hin, by rw [← hval], by rw [← hval], rfl⟩
      · intro _ sub hs
        have hcat : sub.category ∈ subs.map (fun s => s.category) :=
          List.mem_map_of_mem _ hs
        have hgen := lookupTot_build_gen subs [] sub.category
        rw [if_pos (Or.inr hcat)] at hgen
        have hks : sub.category ∈ (buildCategoryTotals subs).map Prod.fst := by
          rw [← lookupTot_isSome_iff]
          rw [buildCategoryTotals, hgen]
          rfl
        obtain ⟨p, hp, hpk⟩ := List.mem_map.mp hks
        refine ⟨⟨p.1, round2 p.2, round (p.2 / calculateMonthlySpend subs * 100),
          getCategoryColor p.1⟩, ?_, hpk⟩
        rw [hres]
        exact List.mem_map_of_mem _ hp

theorem getCategorySpending_spec_witness :
    calculateMonthlySpend [sampleSubscription] ≠ 0 ∧
    (∃ b ∈ getCategorySpending [sampleSubscription], b.category = "Entertainment") := by
  have hne : calculateMonthlySpend [sampleSubscription] ≠ 0 := by
    simp [calculateMonthlySpend, normalizedMonthlyCost, sampleSubscription]
  have h := (getCategorySpending_spec [sampleSubscription]).2.2.2.2 hne
    sampleSubscription (by simp)
  exact ⟨hne, h⟩

theorem normalizedMonthlyCost_nonneg (sub : Subscription) (h : 0 ≤ sub.cost) :
    0 ≤ normalizedMonthlyCost sub := by
  rw [normalizedMonthlyCost]
  split
  · positivity
  · exact h

theorem monthSpendRaw_nonneg (subs : List Subscription) (monthDate : JDate)
    (hc : ∀ sub ∈ subs, 0 ≤ sub.cost) : 0 ≤ monthSpendRaw subs monthDate := by
  rw [monthSpendRaw]
  suffices h : ∀ (l : List Subscription) (a : ℚ), 0 ≤ a → (∀ sub ∈ l, 0 ≤ sub.cost) →
      0 ≤ l.foldl (fun monthSpend sub =>
        if dateLe
            (rewind (decide (sub.billingCycle = BillingCycle.monthly)) monthDate
              sub.renewalDate) monthDate
        then monthSpend + normalizedMonthlyCost sub
        else monthSpend) a by
    exact h subs 0 le_rfl hc
  intro l
  induction l with
  | nil => exact fun a ha _ => ha
  | cons sub rest ih =>
    intro a ha hl
    simp only [List.foldl_cons]
    have hsub : 0 ≤ normalizedMonthlyCost sub :=
      normalizedMonthlyCost_nonneg sub (hl sub (List.mem_cons_self sub rest))
    have hnext : (0 : ℚ) ≤ if dateLe
        (rewind (decide (sub.billingCycle = BillingCycle.monthly)) monthDate
          sub.renewalDate) monthDate
        then a + normalizedMonthlyCost sub else a := by
      split
      · linarith
      · exact ha
    exact ih _ hnext (fun s hs => hl s (List.mem_cons_of_mem sub hs))

theorem round2_close (q : ℚ) : |round2 q - q| ≤ 1/200 := by
  have h := abs_sub_round (q * 100)
  have heq : round2 q - q = -((q * 100 - (round (q * 100) : ℚ)) / 100) := by
    rw [round2]
    ring
  rw [heq, abs_neg, abs_div, abs_of_pos (by norm_num : (0 : ℚ) < 100)]
  linarith

/-- C7 counterexample: the claim asserts each point's total lies between 0.85
and 1.15 times the raw month estimate, but the code rounds the jittered value
to two decimals (`Number(adjustedSpend.toFixed(2))`): with one monthly
subscription of cost 1/250 = 0.004 and the random draw 0 (variation −15%),
the point's total is `toFixed`-rounded to 0, strictly below
0.85 × 0.004 = 0.0034. -/
theorem generateChartData_jitter_escapes_bounds :
    (0 : ℚ) ≤ 0 ∧ (0 : ℚ) < 1 ∧
    monthSpendRaw
      [⟨"1", "Svc", "Std", 1/250, BillingCycle.monthly, ⟨2020, 0, 1⟩, "Music"⟩]
      (monthSub ⟨2020, 11, 15⟩ 11) = 1/250 ∧
    (generateChartData (fun _ => 0) ⟨2020, 11, 15⟩
      [⟨"1", "Svc", "Std", 1/250, BillingCycle.monthly, ⟨2020, 0, 1⟩, "Music"⟩]).head? =
      some ⟨"Jan", 0⟩ ∧
    ¬ (85/100 * (1/250 : ℚ) ≤ 0) := by
  have hms : monthSub ⟨2020, 11, 15⟩ 11 = ⟨2020, 0, 1⟩ := by decide
  have hraw : monthSpendRaw
      [⟨"1", "Svc", "Std", 1/250, BillingCycle.monthly, ⟨2020, 0, 1⟩, "Music"⟩]
      (⟨2020, 0, 1⟩ : JDate) = 1/250 := by
    simp only [monthSpendRaw, List.foldl_cons, List.foldl_nil]
    rw [if_pos (rewind_le _ _ _),
      show normalizedMonthlyCost
        ⟨"1", "Svc", "Std", 1/250, BillingCycle.monthly, ⟨2020, 0, 1⟩, "Music"⟩ = 1/250
      from by rw [normalizedMonthlyCost, if_neg (by decide)]]
    norm_num
  have hround : round ((17 : ℚ)/50) = 0 := round_rat_eq _ _ (by norm_num) (by norm_num)
  have htot : round2 (max 0 ((1/250 : ℚ) * (1 + ((0 : ℚ) - 1/2) * (3/10)))) = 0 := by
    have hval : (1/250 : ℚ) * (1 + ((0 : ℚ) - 1/2) * (3/10)) = 17/5000 := by norm_num
    rw [hval, max_eq_right (by norm_num), round2]
    rw [show ((17 : ℚ)/5000) * 100 = 17/50 by norm_num, hround]
    norm_num
  refine ⟨le_rfl, by norm_num, by rw [hms]; exact hraw, ?_, by norm_num⟩
  unfold generateChartData
  rw [List.head?_map]
  rw [show (List.range 12).head? = some 0 from by decide, Option.map_some']
  simp only [Nat.sub_zero]
  rw [hms, hraw, htot,
    show monthShort (⟨2020, 0, 1⟩ : JDate).month = "Jan" from by decide]

/-- C7 (amended): for every subscription collection with non-negative costs
and every randomness source valued in `[0, 1)`, `generateChartData` returns
exactly 12 points, one per trailing calendar month oldest-first (point `j`
carries the short name of the month `11 - j` months back), and each point's
total is the raw month estimate times a factor in `[0.85, 1.15)`, clamped
below at 0 and then rounded to two decimal places, hence lies within
`[0.85 × raw − 0.005, 1.15 × raw + 0.005]`. -/
theorem generateChartData_spec (rand : ℕ → ℚ) (today : JDate) (subs : List Subscription)
    (hc : ∀ sub ∈ subs, 0 ≤ sub.cost) (hr : ∀ j, 0 ≤ rand j ∧ rand j < 1) :
    (generateChartData rand today subs).length = 12 ∧
    ∀ j (hj : j < (generateChartData rand today subs).length),
      ((generateChartData rand today subs).get ⟨j, hj⟩).name =
        monthShort (monthSub today (11 - j)).month ∧
      85/100 * monthSpendRaw subs (monthSub today (11 - j)) - 1/200 ≤
        ((generateChartData rand today subs).get ⟨j, hj⟩).total ∧
      ((generateChartData rand today subs).get ⟨j, hj⟩).total ≤
        115/100 * monthSpendRaw subs (monthSub today (11 - j)) + 1/200 := by
  refine ⟨by simp [generateChartData], ?_⟩
  intro j hj
  have hget : (generateChartData rand today subs).get ⟨j, hj⟩ =
      ⟨monthShort (monthSub today (11 - j)).month,
        round2 (max 0 (monthSpendRaw subs (monthSub today (11 - j)) *
          (1 + (rand j - 1/2) * (3/10))))⟩ := by
    rw [List.get_eq_getElem]
    simp only [generateChartData, List.getElem_map, List.getElem_range]
  rw [hget]
  refine ⟨rfl, ?_, ?_⟩ <;> dsimp only
  all_goals
    have hR : 0 ≤ monthSpendRaw subs (monthSub today (11 - j)) :=
      monthSpendRaw_nonneg subs _ hc
    have hv1 : 17/20 ≤ 1 + (rand j - 1/2) * (3/10) := by
      have := (hr j).1
      linarith
    have hv2 : 1 + (rand j - 1/2) * (3/10) ≤ 23/20 := by
      have := (hr j).2
      linarith
    have hx0 : 0 ≤ monthSpendRaw subs (monthSub today (11 - j)) *
        (1 + (rand j - 1/2) * (3/10)) := by
      have : (0 : ℚ) ≤ 1 + (rand j - 1/2) * (3/10) := by linarith
      positivity
    have hmax : max 0 (monthSpendRaw subs (monthSub today (11 - j)) *
        (1 + (rand j - 1/2) * (3/10))) =
        monthSpendRaw subs (monthSub today (11 - j)) *
          (1 + (rand j - 1/2) * (3/10)) := max_eq_right hx0
    have hlo : 17/20 * monthSpendRaw subs (monthSub today (11 - j)) ≤
        monthSpendRaw subs (monthSub today (11 - j)) *
          (1 + (rand j - 1/2) * (3/10)) := by
      nlinarith
    have hhi : monthSpendRaw subs (monthSub today (11 - j)) *
        (1 + (rand j - 1/2) * (3/10)) ≤
        23/20 * monthSpendRaw subs (monthSub today (11 - j)) := by
      nlinarith
    have hclose := round2_close (monthSpendRaw subs (monthSub today (11 - j)) *
      (1 + (rand j - 1/2) * (3/10)))
    rw [hmax]
    rw [abs_le] at hclose
    linarith [hclose.1, hclose.2]

theorem generateChartData_spec_witness :
    (generateChartData (fun _ => 0) ⟨2020, 11, 15⟩ []).length = 12 ∧
    ((generateChartData (fun _ => 0) ⟨2020, 11, 15⟩ []).get
      ⟨0, by simp [generateChartData]⟩).name = "Jan" := by
  have h := generateChartData_spec (fun _ => 0) ⟨2020, 11, 15⟩ []
    (by simp) (fun j => ⟨le_rfl, by norm_num⟩)
  refine ⟨h.1, ?_⟩
  have h2 := (h.2 0 (by simp [generateChartData])).1
  rw [h2]
  decide

/-- C8: for every subscription collection, search term, category filter, and
each of the three sort keys, the registry's derived view contains exactly the
subscriptions whose lower-cased name contains the lower-cased search term and
whose category equals the filter (filter `"all"` matches everything), ordered
by the sort key: `name` ascending under the locale-aware comparator `nameCmp`
(assumed a total preorder, as `localeCompare` is), `cost` descending by raw
cost, `renewal` ascending by renewal date. -/
theorem filteredAndSortedSubscriptions_spec (nameCmp : String → String → ℤ)
    (htot : ∀ a b, nameCmp a b ≤ 0 ∨ nameCmp b a ≤ 0)
    (htrans : ∀ a b c, nameCmp a b ≤ 0 → nameCmp b c ≤ 0 → nameCmp a c ≤ 0)
    (searchTerm filterBy : String) (subs : List Subscription) :
    ∀ sortBy ∈ (["name", "cost", "renewal"] : List String),
      List.Perm (filteredAndSortedSubscriptions nameCmp searchTerm filterBy sortBy subs)
        (subs.filter (matchesControls searchTerm filterBy)) ∧
      (∀ sub, sub ∈ filteredAndSortedSubscriptions nameCmp searchTerm filterBy sortBy subs ↔
        (sub ∈ subs ∧ strIncludes (toLowerStr sub.name) (toLowerStr searchTerm) = true ∧
          (filterBy = "all" ∨ sub.category = filterBy))) ∧
      (sortBy = "name" →
        (filteredAndSortedSubscriptions nameCmp searchTerm filterBy sortBy subs).Pairwise
          (fun a b => nameCmp a.name b.name ≤ 0)) ∧
      (sortBy = "cost" →
        (filteredAndSortedSubscriptions nameCmp searchTerm filterBy sortBy subs).Pairwise
          (fun a b => b.cost ≤ a.cost)) ∧
      (sortBy = "renewal" →
        (filteredAndSortedSubscriptions nameCmp searchTerm filterBy sortBy subs).Pairwise
          (fun a b => ordD a.renewalDate ≤ ordD b.renewalDate)) := by
  have hname : ∀ a b : Subscription,
      sortLe nameCmp "name" a b = decide (nameCmp a.name b.name ≤ 0) := by
    intro a b
    rw [sortLe, if_pos rfl]
  have hcost : ∀ a b : Subscription,
      sortLe nameCmp "cost" a b = decide (b.cost - a.cost ≤ 0) := by
    intro a b
    rw [sortLe, if_neg (by decide), if_pos rfl]
  have hren : ∀ a b : Subscription,
      sortLe nameCmp "renewal" a b =
        decide (ordD a.renewalDate - ordD b.renewalDate ≤ 0) := by
    intro a b
    rw [sortLe, if_neg (by decide), if_neg (by decide), if_pos rfl]
  intro sortBy _
  refine ⟨List.mergeSort_perm _ _, ?_, ?_, ?_, ?_⟩
  · intro sub
    simp only [filteredAndSortedSubscriptions, List.mem_mergeSort, List.mem_filter,
      matchesControls, Bool.and_eq_true, Bool.or_eq_true, beq_iff_eq]
  · intro h
    subst h
    rw [filteredAndSortedSubscriptions]
    have hs := @List.sorted_mergeSort _ (sortLe nameCmp "name")
      (fun a b c hab hbc => by
        rw [hname] at hab hbc ⊢
        rw [decide_eq_true_eq] at hab hbc ⊢
        exact htrans _ _ _ hab hbc)
      (fun a b => by
        rw [hname, hname, Bool.or_eq_true, decide_eq_true_eq, decide_eq_true_eq]
        exact htot a.name b.name)
      (subs.filter (matchesControls searchTerm filterBy))
    exact hs.imp (fun hab => by
      rw [hname, decide_eq_true_eq] at hab
      exact hab)
  · intro h
    subst h
    rw [filteredAndSortedSubscriptions]
    have hs := @List.sorted_mergeSort _ (sortLe nameCmp "cost")
      (fun a b c hab hbc => by
        rw [hcost, decide_eq_true_eq, sub_nonpos] at hab hbc ⊢
        exact le_trans hbc hab)
      (fun a b => by
        rw [hcost, hcost, Bool.or_eq_true, decide_eq_true_eq, decide_eq_true_eq,
          sub_nonpos, sub_nonpos]
        exact le_total b.cost a.cost)
      (subs.filter (matchesControls searchTerm filterBy))
    exact hs.imp (fun hab => by
      rw [hcost, decide_eq_true_eq, sub_nonpos] at hab
      exact hab)
  · intro h
    subst h
    rw [filteredAndSortedSubscriptions]
    have hs := @List.sorted_mergeSort _ (sortLe nameCmp "renewal")
      (fun a b c hab hbc => by
        rw [hren, decide_eq_true_eq, sub_nonpos] at hab hbc ⊢
        exact le_trans hab hbc)
      (fun a b => by
        rw [hren, hren, Bool.or_eq_true, decide_eq_true_eq, decide_eq_true_eq,
          sub_nonpos, sub_nonpos]
        exact le_total (ordD a.renewalDate) (ordD b.renewalDate))
      (subs.filter (matchesControls searchTerm filterBy))
    exact hs.imp (fun hab => by
      rw [hren, decide_eq_true_eq, sub_nonpos] at hab
      exact hab)

theorem filteredAndSortedSubscriptions_spec_witness :
    sampleSubscription ∈ filteredAndSortedSubscriptions
      (fun a b => (a.length : ℤ) - (b.length : ℤ)) "" "all" "name"
      [sampleSubscription] := by
  have h := filteredAndSortedSubscriptions_spec
    (fun a b => (a.length : ℤ) - (b.length : ℤ))
    (fun a b => by dsimp only; omega)
    (fun a b c h1 h2 => by dsimp only at h1 h2 ⊢; omega)
    "" "all" [sampleSubscription] "name" (by simp)
  exact (h.2.1 sampleSubscription).mpr ⟨by simp, by decide, Or.inl rfl⟩

end Changes
